import Mathlib

/-!
Shallow embedding of the rule-based parsing pipeline in `app.py` of the
Quantum-Ready Parsing Engine: text normalization, tokenization, keyword
classification, feature-vector synthesis and record assembly, together with
theorems settling the specification claims about them.

Characters are handled through their code points (`Char.toNat`), matching the
ASCII character classes of the source's regexes; Python float table constants
are rendered as rationals (the pipeline only ever looks the constants up and
returns them, it performs no arithmetic on them).
-/

namespace QRPE

/-- Input model (`RawQuery` in app.py): a free-text query plus optional
role, location and channel, with the source's defaults. -/
structure RawQuery where
  query : String
  user_role : Option String := some "customer"
  location : Option String := none
  channel : Option String := some "web"
  deriving DecidableEq, Repr

/-- Output model (`ParsedQuery` in app.py).  `modifiers` is an insertion-ordered
association list, mirroring the Python dict built key by key. -/
structure ParsedQuery where
  primary_intent : String
  service_type : Option String := none
  urgency : Option String := none
  budget_sensitivity : Option String := none
  location : Option String := none
  modifiers : List (String × String) := []
  quantum_ready_vector : Option (List ℚ) := none
  deriving DecidableEq, Repr

/-- `SERVICE_KEYWORDS` dict of app.py, in its insertion order. -/
def SERVICE_KEYWORDS : List (String × String) :=
  [("plumber", "plumbing"), ("plumbing", "plumbing"), ("leak", "leak"),
   ("pipe", "leak"), ("drain", "drain"), ("toilet", "toilet"),
   ("roof", "roofing"), ("roofer", "roofing"), ("hvac", "hvac"),
   ("air conditioner", "hvac"), ("furnace", "hvac"),
   ("electrician", "electrical"), ("electrical", "electrical"),
   ("cement", "cement"), ("concrete", "cement")]

/-- `URGENCY_KEYWORDS` dict of app.py, in its insertion order. -/
def URGENCY_KEYWORDS : List (String × String) :=
  [("now", "emergency"), ("asap", "emergency"), ("urgent", "emergency"),
   ("tonight", "emergency"), ("today", "same_day"), ("tomorrow", "soon"),
   ("whenever", "flexible")]

/-- `BUDGET_KEYWORDS` dict of app.py, in its insertion order. -/
def BUDGET_KEYWORDS : List (String × String) :=
  [("cheap", "low"), ("affordable", "low"), ("budget", "low"),
   ("expensive", "high"), ("premium", "high"), ("fair price", "medium")]

/-- `STOPWORDS` set of app.py. -/
def STOPWORDS : List String :=
  ["i", "need", "a", "an", "the", "to", "for", "my", "in", "at", "on", "of",
   "please", "help", "with", "and", "is", "it", "that", "can", "you"]

/-- Python's regex class `\s`: space, tab, newline, vertical tab, form feed,
carriage return. -/
def pySpace (c : Char) : Bool :=
  c.toNat == 32 || c.toNat == 9 || c.toNat == 10 || c.toNat == 11 ||
  c.toNat == 12 || c.toNat == 13

/-- The character class `[a-z0-9]` of the first regex in `normalize`. -/
def lowerAlnum (c : Char) : Bool :=
  (97 ≤ c.toNat && c.toNat ≤ 122) || (48 ≤ c.toNat && c.toNat ≤ 57)

/-- `str.lower` restricted to the ASCII range (the only characters that
survive the `[^a-z0-9\s]` replacement that follows it). -/
def toLowerAscii (c : Char) : Char :=
  if 65 ≤ c.toNat && c.toNat ≤ 90 then Char.ofNat (c.toNat + 32) else c

/-- One character of ``re.sub(r"[^a-z0-9\s]", " ", text)``: anything outside
`[a-z0-9]` and whitespace becomes a space. -/
def cleanChar (c : Char) : Char :=
  if lowerAlnum c || pySpace c then c else ' '

/-- ``re.sub(r"\s+", " ", text)``: each maximal whitespace run becomes a single
space.  The flag records whether we are inside a whitespace run. -/
def collapseWS : List Char → Bool → List Char
  | [], _ => []
  | c :: cs, inRun =>
    if pySpace c then
      if inRun then collapseWS cs true else ' ' :: collapseWS cs true
    else
      c :: collapseWS cs false

/-- Trailing-whitespace removal (the right half of `str.strip`). -/
def dropEndWS : List Char → List Char
  | [] => []
  | c :: cs =>
    let r := dropEndWS cs
    if r.isEmpty && pySpace c then [] else c :: r

/-- `str.strip`: drop leading and trailing whitespace. -/
def stripWS (l : List Char) : List Char :=
  dropEndWS (l.dropWhile pySpace)

/-- `normalize` of app.py: lowercase, replace non-`[a-z0-9\s]` by spaces,
collapse whitespace runs, strip. -/
def normalize (s : String) : String :=
  ⟨stripWS (collapseWS ((s.data.map toLowerAscii).map cleanChar) false)⟩

/-- Splitting on whitespace with no empty fields (`str.split()` with no
argument), accumulating the current word reversed. -/
def splitWS : List Char → List Char → List String
  | [], acc => if acc.isEmpty then [] else [⟨acc.reverse⟩]
  | c :: cs, acc =>
    if pySpace c then
      if acc.isEmpty then splitWS cs [] else ⟨acc.reverse⟩ :: splitWS cs []
    else
      splitWS cs (c :: acc)

/-- `tokenize` of app.py: split on whitespace, drop stopwords. -/
def tokenize (s : String) : List String :=
  (splitWS s.data []).filter (fun t => !STOPWORDS.contains t)

/-- Python's `k in text` on strings: `n` occurs contiguously in `h`.
`begins n h` is `h` starting with `n`. -/
def begins : List Char → List Char → Bool
  | [], _ => true
  | _ :: _, [] => false
  | a :: as, b :: bs => a == b && begins as bs

/-- Substring occurrence at any position (Python's `in` on strings). -/
def occursIn (n : List Char) : List Char → Bool
  | [] => n.isEmpty
  | c :: cs => begins n (c :: cs) || occursIn n cs

/-- `needle in hay` for strings. -/
def containsStr (hay needle : String) : Bool :=
  occursIn needle.data hay.data

/-- `extract_primary_intent` of app.py: first token that is a key of
`SERVICE_KEYWORDS` gives its category + `"_service"`; otherwise the fallback. -/
def extract_primary_intent : List String → String
  | [] => "general_service"
  | t :: ts =>
    match SERVICE_KEYWORDS.find? (fun p => p.1 == t) with
    | some p => p.2 ++ "_service"
    | none => extract_primary_intent ts

/-- The fine-grained category list hard-coded inside `extract_service_type`. -/
def FINE_TYPES : List String :=
  ["leak", "drain", "toilet", "roof", "hvac", "cement", "concrete"]

/-- `extract_service_type` of app.py: first token in `FINE_TYPES`, verbatim. -/
def extract_service_type : List String → Option String
  | [] => none
  | t :: ts => if FINE_TYPES.contains t then some t else extract_service_type ts

/-- The shared loop of `extract_urgency` and `extract_budget`:
`for k, v in table.items(): if k in text: return v` / `return None`. -/
def firstLabel : List (String × String) → String → Option String
  | [], _ => none
  | (k, v) :: rest, text => if containsStr text k then some v else firstLabel rest text

/-- `extract_urgency` of app.py. -/
def extract_urgency (text : String) : Option String :=
  firstLabel URGENCY_KEYWORDS text

/-- `extract_budget` of app.py. -/
def extract_budget (text : String) : Option String :=
  firstLabel BUDGET_KEYWORDS text

/-- The `intent_map` of `build_quantum_ready_vector`; the float constant
`0.k` is the exact rational `mkRat k 10`. -/
def intent_map : List (String × ℚ) :=
  [("plumbing_service", mkRat 1 10), ("roofing_service", mkRat 2 10),
   ("hvac_service", mkRat 3 10), ("electrical_service", mkRat 4 10),
   ("cement_service", mkRat 5 10), ("general_service", 0)]

/-- The `urgency_map` of `build_quantum_ready_vector`; the `None` dict key is
the `none` association. -/
def urgency_map : List (Option String × ℚ) :=
  [(some "emergency", 1), (some "same_day", mkRat 7 10), (some "soon", mkRat 5 10),
   (some "flexible", mkRat 2 10), (none, 0)]

/-- The `budget_map` of `build_quantum_ready_vector`. -/
def budget_map : List (Option String × ℚ) :=
  [(some "low", mkRat 2 10), (some "medium", mkRat 5 10),
   (some "high", mkRat 8 10), (none, 0)]

/-- Python's `dict.get(k, d)` over an association list. -/
def dictGetD {α : Type} [BEq α] (m : List (α × ℚ)) (k : α) (d : ℚ) : ℚ :=
  match m.find? (fun p => p.1 == k) with
  | some p => p.2
  | none => d

/-- `build_quantum_ready_vector` of app.py: `[intent_val, urgency_val,
budget_val]` via the three lookup tables with default `0.0`. -/
def build_quantum_ready_vector (parsed : ParsedQuery) : List ℚ :=
  [dictGetD intent_map parsed.primary_intent 0,
   dictGetD urgency_map parsed.urgency 0,
   dictGetD budget_map parsed.budget_sensitivity 0]

/-- Python truthiness of an `Optional[str]`: `None` and `""` are falsy. -/
def truthy : Option String → Bool
  | none => false
  | some s => !(s == "")

/-- `parse_query` of app.py: normalize, tokenize, run the three classifiers,
assemble modifiers (role and channel only when truthy), build the record, then
attach the vector computed from the record's own fields. -/
def parse_query (payload : RawQuery) : ParsedQuery :=
  let normalized := normalize payload.query
  let tokens := tokenize normalized
  let primary_intent := extract_primary_intent tokens
  let service_type := extract_service_type tokens
  let urgency := extract_urgency normalized
  let budget := extract_budget normalized
  let modifiers : List (String × String) :=
    (match payload.user_role with
     | some r => if r == "" then [] else [("user_role", r)]
     | none => []) ++
    (match payload.channel with
     | some c => if c == "" then [] else [("channel", c)]
     | none => [])
  let parsed : ParsedQuery :=
    { primary_intent := primary_intent, service_type := service_type,
      urgency := urgency, budget_sensitivity := budget,
      location := payload.location, modifiers := modifiers,
      quantum_ready_vector := none }
  { parsed with quantum_ready_vector := some (build_quantum_ready_vector parsed) }

end QRPE

namespace QRPE

set_option maxRecDepth 40000

/-! ## Helper lemmas -/

/-- Every intent the extractor can produce is a table category suffixed with
`"_service"`, or the fallback. -/
theorem extract_primary_intent_mem (ts : List String) :
    extract_primary_intent ts ∈
      SERVICE_KEYWORDS.map (fun p => p.2 ++ "_service") ++ ["general_service"] := by
  induction ts with
  | nil => simp [extract_primary_intent]
  | cons t ts ih =>
    cases h : SERVICE_KEYWORDS.find? (fun p => p.1 == t) with
    | none => simpa [extract_primary_intent, h] using ih
    | some p =>
      have hp : p ∈ SERVICE_KEYWORDS := List.mem_of_find?_eq_some h
      simp only [extract_primary_intent, h, List.mem_append, List.mem_map]
      exact Or.inl ⟨p, hp, rfl⟩

/-! ## Claims -/

/-- Claim C1 (counterexample): for the query
"roof leak, fair price please, whenever is fine" the code's service-type
extractor does NOT return "leak": the token "roof" comes first and is itself in
the fine-grained list. -/
theorem claim_C1_counterexample :
    (parse_query ⟨"roof leak, fair price please, whenever is fine",
        some "customer", none, some "web"⟩).service_type ≠ some "leak" := by
  decide

/-- Claim C1 (amended): for the query
"roof leak, fair price please, whenever is fine" with default role/channel and
no location, parse returns primary_intent "roofing_service", service_type
"roof" (not "leak": the earlier token "roof" is in the fine-grained list),
urgency "flexible" and budget_sensitivity "medium". -/
theorem claim_C1_amended_thm :
    (parse_query ⟨"roof leak, fair price please, whenever is fine",
        some "customer", none, some "web"⟩).primary_intent = "roofing_service"
    ∧ (parse_query ⟨"roof leak, fair price please, whenever is fine",
        some "customer", none, some "web"⟩).service_type = some "roof"
    ∧ (parse_query ⟨"roof leak, fair price please, whenever is fine",
        some "customer", none, some "web"⟩).urgency = some "flexible"
    ∧ (parse_query ⟨"roof leak, fair price please, whenever is fine",
        some "customer", none, some "web"⟩).budget_sensitivity = some "medium" := by
  decide

/-- Claim C2 (counterexample): the query "leak" produces
primary_intent "leak_service", which is not a key of the vector synthesizer's
intent map, so the defensive 0.0 default for f0 is reached. -/
theorem claim_C2_counterexample :
    (parse_query ⟨"leak", some "customer", none, some "web"⟩).primary_intent
      = "leak_service"
    ∧ intent_map.find? (fun p => p.1 == "leak_service") = none
    ∧ (parse_query ⟨"leak", some "customer", none, some "web"⟩).quantum_ready_vector
      = some [0, 0, 0] := by
  decide

/-- Claim C2 (amended): for every input, the pipeline's primary_intent is
either a key of the intent-to-f0 map or one of "leak_service",
"drain_service", "toilet_service" — intents the pipeline can produce that are
missing from the map, for which the defensive 0.0 default is reached. -/
theorem claim_C2_amended_thm (payload : RawQuery) :
    (intent_map.find? (fun p => p.1 == (parse_query payload).primary_intent)).isSome = true
    ∨ (parse_query payload).primary_intent
        ∈ ["leak_service", "drain_service", "toilet_service"] := by
  have h : (parse_query payload).primary_intent
      = extract_primary_intent (tokenize (normalize payload.query)) := rfl
  rw [h]
  have hmem := extract_primary_intent_mem (tokenize (normalize payload.query))
  revert hmem
  generalize extract_primary_intent (tokenize (normalize payload.query)) = i
  intro hmem
  fin_cases hmem <;> decide

end QRPE

namespace QRPE

set_option maxRecDepth 40000

/-- Modelled from the spec's words, for the refinement comparison of claim C3:
the intent is determined by the earliest token (by position in the token
sequence) that is a key of the service keyword table, with "_service"
appended, and is the fallback when no token is a key. -/
def earliestIntentSpec (tokens : List String) : String :=
  match tokens.find? (fun t => (SERVICE_KEYWORDS.find? (fun p => p.1 == t)).isSome) with
  | some t =>
    (match SERVICE_KEYWORDS.find? (fun p => p.1 == t) with
     | some p => p.2
     | none => "") ++ "_service"
  | none => "general_service"

/-- Claim C3: the intent extractor returns the category of the earliest
keyword token (by token position, not table order) suffixed "_service", with
fallback "general_service"; in particular ["plumber", "roof"] yields
"plumbing_service". -/
theorem claim_C3_thm :
    (∀ ts : List String, extract_primary_intent ts = earliestIntentSpec ts)
    ∧ extract_primary_intent ["plumber", "roof"] = "plumbing_service" := by
  constructor
  · intro ts
    induction ts with
    | nil => rfl
    | cons t ts ih =>
      cases h : SERVICE_KEYWORDS.find? (fun p => p.1 == t) with
      | none =>
        rw [show extract_primary_intent (t :: ts) = extract_primary_intent ts by
              simp [extract_primary_intent, h],
            ih]
        simp [earliestIntentSpec, List.find?_cons, h]
      | some p =>
        simp [extract_primary_intent, earliestIntentSpec, List.find?_cons, h]
  · decide

/-- The two phrase extractors share one loop; it returns the label of the
first table entry whose phrase is contained in the text. -/
theorem firstLabel_eq_find (kvs : List (String × String)) (text : String) :
    firstLabel kvs text = (kvs.find? (fun p => containsStr text p.1)).map Prod.snd := by
  induction kvs with
  | nil => rfl
  | cons kv rest ih =>
    obtain ⟨k, v⟩ := kv
    by_cases h : containsStr text k
    · simp [firstLabel, List.find?_cons, h]
    · simp [firstLabel, List.find?_cons, h, ih]

/-- `begins n h` says `h` starts with `n`. -/
theorem begins_iff (n : List Char) :
    ∀ h : List Char, begins n h = true ↔ ∃ r, h = n ++ r := by
  induction n with
  | nil => intro h; simp [begins]
  | cons a as ih =>
    intro h
    cases h with
    | nil => simp [begins]
    | cons b bs =>
      simp only [begins, Bool.and_eq_true, beq_iff_eq, List.cons_append,
        List.cons.injEq, ih bs]
      constructor
      · rintro ⟨rfl, r, rfl⟩; exact ⟨r, rfl, rfl⟩
      · rintro ⟨r, rfl, rfl⟩; exact ⟨rfl, r, rfl⟩

/-- `occursIn n h` is contiguous-substring occurrence. -/
theorem occursIn_iff (n : List Char) :
    ∀ h : List Char, occursIn n h = true ↔ ∃ l r, h = l ++ n ++ r := by
  intro h
  induction h with
  | nil =>
    simp only [occursIn, List.isEmpty_iff]
    constructor
    · rintro rfl; exact ⟨[], [], rfl⟩
    · rintro ⟨l, r, hl⟩
      cases l <;> cases n <;> simp_all
  | cons c cs ih =>
    simp only [occursIn, Bool.or_eq_true, begins_iff, ih]
    constructor
    · rintro (⟨r, hr⟩ | ⟨l, r, hr⟩)
      · exact ⟨[], r, by simpa using hr⟩
      · exact ⟨c :: l, r, by simp [hr]⟩
    · rintro ⟨l, r, hl⟩
      cases l with
      | nil => exact Or.inl ⟨r, by simpa using hl⟩
      | cons x xs =>
        simp only [List.cons_append, List.cons.injEq] at hl
        exact Or.inr ⟨xs, r, hl.2⟩

/-- Claim C4: both phrase extractors scan their table in its defined order and
return the first label whose phrase occurs as a contiguous substring of the
whole text (`containsStr`, shown equivalent to substring occurrence), with
absence when no phrase occurs; the budget table contains the multi-word phrase
"fair price". -/
theorem claim_C4_thm :
    (∀ text, extract_urgency text
      = (URGENCY_KEYWORDS.find? (fun p => containsStr text p.1)).map Prod.snd)
    ∧ (∀ text, extract_budget text
      = (BUDGET_KEYWORDS.find? (fun p => containsStr text p.1)).map Prod.snd)
    ∧ (∀ hay n : String, containsStr hay n = true ↔ ∃ l r, hay.data = l ++ n.data ++ r)
    ∧ ("fair price", "medium") ∈ BUDGET_KEYWORDS := by
  refine ⟨fun text => firstLabel_eq_find _ _, fun text => firstLabel_eq_find _ _,
    fun hay n => occursIn_iff n.data hay.data, by decide⟩

/-- Claim C6: the benchmark query "I need a cheap plumber in San Jose ASAP"
with location "San Jose, CA" parses to plumbing_service / emergency / low,
passes the location through unchanged, and gets vector [0.1, 1.0, 0.2]. -/
theorem claim_C6_thm :
    (parse_query ⟨"I need a cheap plumber in San Jose ASAP", some "customer",
        some "San Jose, CA", some "web"⟩).primary_intent = "plumbing_service"
    ∧ (parse_query ⟨"I need a cheap plumber in San Jose ASAP", some "customer",
        some "San Jose, CA", some "web"⟩).urgency = some "emergency"
    ∧ (parse_query ⟨"I need a cheap plumber in San Jose ASAP", some "customer",
        some "San Jose, CA", some "web"⟩).budget_sensitivity = some "low"
    ∧ (parse_query ⟨"I need a cheap plumber in San Jose ASAP", some "customer",
        some "San Jose, CA", some "web"⟩).location = some "San Jose, CA"
    ∧ (parse_query ⟨"I need a cheap plumber in San Jose ASAP", some "customer",
        some "San Jose, CA", some "web"⟩).quantum_ready_vector
      = some [mkRat 1 10, 1, mkRat 2 10] := by
  decide

/-- Claim C10: urgency matching is raw substring containment: in
"let me know" no token is an urgency keyword, yet the urgency comes back
"emergency" because "now" occurs inside the token "know". -/
theorem claim_C10_thm :
    tokenize (normalize "let me know") = ["let", "me", "know"]
    ∧ (tokenize (normalize "let me know")).all
        (fun t => (URGENCY_KEYWORDS.find? (fun p => p.1 == t)).isNone) = true
    ∧ (parse_query ⟨"let me know", some "customer", none, some "web"⟩).urgency
      = some "emergency" := by
  decide

end QRPE

namespace QRPE

set_option maxRecDepth 40000

/-- If no token is a service keyword, the intent extractor falls back. -/
theorem extract_primary_intent_of_no_hit (ts : List String)
    (h : ∀ t ∈ ts, SERVICE_KEYWORDS.find? (fun p => p.1 == t) = none) :
    extract_primary_intent ts = "general_service" := by
  induction ts with
  | nil => rfl
  | cons t ts ih =>
    have ht := h t (List.mem_cons_self t ts)
    simp only [extract_primary_intent, ht]
    exact ih fun x hx => h x (List.mem_cons_of_mem t hx)

/-- If no token is a fine-grained type, the service-type extractor is absent. -/
theorem extract_service_type_of_no_hit (ts : List String)
    (h : ∀ t ∈ ts, FINE_TYPES.contains t = false) :
    extract_service_type ts = none := by
  induction ts with
  | nil => rfl
  | cons t ts ih =>
    have ht := h t (List.mem_cons_self t ts)
    simp only [extract_service_type, ht, Bool.false_eq_true, if_false]
    exact ih fun x hx => h x (List.mem_cons_of_mem t hx)

/-- The hypothesis of claim C5: no keyword of any of the four tables matches
the query. -/
def noKeywordHit (q : String) : Bool :=
  (tokenize (normalize q)).all
    (fun t => (SERVICE_KEYWORDS.find? (fun p => p.1 == t)).isNone
      && !(FINE_TYPES.contains t))
  && (extract_urgency (normalize q)).isNone
  && (extract_budget (normalize q)).isNone

/-- Claim C5: parse is total (the embedding is a total function), and whenever
no keyword matches — as for the empty string, whitespace-only strings and
punctuation-only strings — the record has the fallback intent, absent
service_type/urgency/budget, and the zero vector. -/
theorem claim_C5_thm (q : String) (role loc chan : Option String)
    (h : noKeywordHit q = true) :
    (parse_query ⟨q, role, loc, chan⟩).primary_intent = "general_service"
    ∧ (parse_query ⟨q, role, loc, chan⟩).service_type = none
    ∧ (parse_query ⟨q, role, loc, chan⟩).urgency = none
    ∧ (parse_query ⟨q, role, loc, chan⟩).budget_sensitivity = none
    ∧ (parse_query ⟨q, role, loc, chan⟩).quantum_ready_vector = some [0, 0, 0] := by
  simp only [noKeywordHit, Bool.and_eq_true, List.all_eq_true, Bool.not_eq_true',
    Option.isNone_iff_eq_none] at h
  obtain ⟨⟨hall, hu⟩, hb⟩ := h
  have hintent : extract_primary_intent (tokenize (normalize q)) = "general_service" :=
    extract_primary_intent_of_no_hit _ fun t ht => by
      have := (hall t ht).1
      simpa [Option.isNone_iff_eq_none] using this
  have hstype : extract_service_type (tokenize (normalize q)) = none :=
    extract_service_type_of_no_hit _ fun t ht => (hall t ht).2
  refine ⟨hintent, hstype, hu, hb, ?_⟩
  show some (build_quantum_ready_vector _) = _
  simp only [build_quantum_ready_vector, hintent, hstype, hu, hb]
  decide

/-- Claim C5 witness: a punctuation-only query takes all the fallbacks. -/
theorem claim_C5_witness :
    (parse_query ⟨"?!, --", some "customer", none, some "web"⟩).primary_intent
      = "general_service"
    ∧ (parse_query ⟨"?!, --", some "customer", none, some "web"⟩).service_type = none
    ∧ (parse_query ⟨"?!, --", some "customer", none, some "web"⟩).urgency = none
    ∧ (parse_query ⟨"?!, --", some "customer", none, some "web"⟩).budget_sensitivity = none
    ∧ (parse_query ⟨"?!, --", some "customer", none, some "web"⟩).quantum_ready_vector
      = some [0, 0, 0] :=
  claim_C5_thm "?!, --" (some "customer") none (some "web") (by decide)

/-- Claim C7: parse is deterministic — two calls whose query, role, location
and channel coincide return identical records in every field. -/
theorem claim_C7_thm (p q : RawQuery) (h1 : p.query = q.query)
    (h2 : p.user_role = q.user_role) (h3 : p.location = q.location)
    (h4 : p.channel = q.channel) : parse_query p = parse_query q := by
  obtain ⟨pq, pr, pl, pc⟩ := p
  obtain ⟨qq, qr, ql, qc⟩ := q
  simp only at h1 h2 h3 h4
  subst h1; subst h2; subst h3; subst h4
  rfl

/-- Claim C7 witness: instantiated at a concrete pair of equal inputs. -/
theorem claim_C7_witness :
    parse_query ⟨"fix my drain", some "homeowner", none, some "sms"⟩
      = parse_query ⟨"fix my drain", some "homeowner", none, some "sms"⟩ :=
  claim_C7_thm ⟨"fix my drain", some "homeowner", none, some "sms"⟩
    ⟨"fix my drain", some "homeowner", none, some "sms"⟩ rfl rfl rfl rfl

end QRPE

namespace QRPE

set_option maxRecDepth 40000

/-- Claim C8 (counterexample): an input whose role field is present and
non-null but empty (`some ""`) produces a modifiers mapping with no
"user_role" key — Python truthiness also drops empty strings. -/
theorem claim_C8_counterexample :
    (some "" : Option String) ≠ none
    ∧ (parse_query ⟨"hi", some "", none, some "web"⟩).modifiers.find?
        (fun kv => kv.1 == "user_role") = none := by
  decide

/-- Claim C8 (amended): the "user_role" / "channel" keys appear in the
modifiers mapping iff the corresponding input field is present, non-null and
non-empty, and then carry the input value unchanged. -/
theorem claim_C8_amended_thm (p : RawQuery) :
    (parse_query p).modifiers.find? (fun kv => kv.1 == "user_role")
      = (match p.user_role with
         | some r => if r = "" then none else some ("user_role", r)
         | none => none)
    ∧ (parse_query p).modifiers.find? (fun kv => kv.1 == "channel")
      = (match p.channel with
         | some c => if c = "" then none else some ("channel", c)
         | none => none) := by
  obtain ⟨q, ur, loc, ch⟩ := p
  have hm : (parse_query ⟨q, ur, loc, ch⟩).modifiers
      = (match ur with
         | some r => if r == "" then [] else [("user_role", r)]
         | none => []) ++
        (match ch with
         | some c => if c == "" then [] else [("channel", c)]
         | none => []) := rfl
  rw [hm]
  cases ur with
  | none =>
    cases ch with
    | none => exact ⟨rfl, rfl⟩
    | some c =>
      by_cases hc : c = ""
      · subst hc; exact ⟨rfl, rfl⟩
      · simp [hc, List.find?_cons]
  | some r =>
    by_cases hr : r = ""
    · subst hr
      cases ch with
      | none => exact ⟨rfl, rfl⟩
      | some c =>
        by_cases hc : c = ""
        · subst hc; exact ⟨rfl, rfl⟩
        · simp [hc, List.find?_cons]
    · cases ch with
      | none => simp [hr, List.find?_cons]
      | some c =>
        by_cases hc : c = ""
        · subst hc; simp [hr, List.find?_cons]
        · simp [hr, hc, List.find?_cons]

end QRPE

namespace QRPE

set_option maxRecDepth 40000

/-! ## Character-class facts used for idempotence of `normalize` -/

/-- Characters surviving the cleaning step: `[a-z0-9]` or whitespace. -/
def okChar (c : Char) : Bool := lowerAlnum c || pySpace c

/-- Characters of a fully normalized text: `[a-z0-9]` or a literal space. -/
def goodChar (c : Char) : Bool := lowerAlnum c || c == ' '

/-- No two adjacent whitespace characters. -/
def noDbl : List Char → Bool
  | [] => true
  | [_] => true
  | a :: b :: rest => !(pySpace a && pySpace b) && noDbl (b :: rest)

/-- The first character, if any, is not whitespace. -/
def headNotWS : List Char → Bool
  | [] => true
  | c :: _ => !(pySpace c)

/-- The last character, if any, is not whitespace. -/
def lastNotWS : List Char → Bool
  | [] => true
  | [c] => !(pySpace c)
  | _ :: c :: cs => lastNotWS (c :: cs)

theorem lowerAlnum_not_pySpace {c : Char} (h : lowerAlnum c = true) :
    pySpace c = false := by
  simp only [lowerAlnum, Bool.or_eq_true, Bool.and_eq_true, decide_eq_true_eq] at h
  simp only [pySpace, Bool.or_eq_false_iff, beq_eq_false_iff_ne, ne_eq]
  omega

theorem goodChar_space {c : Char} (hg : goodChar c = true) (hs : pySpace c = true) :
    c = ' ' := by
  simp only [goodChar, Bool.or_eq_true, beq_iff_eq] at hg
  rcases hg with hg | hg
  · rw [lowerAlnum_not_pySpace hg] at hs; cases hs
  · exact hg

theorem toLowerAscii_id {c : Char} (h : goodChar c = true) : toLowerAscii c = c := by
  simp only [goodChar, Bool.or_eq_true, beq_iff_eq] at h
  have hcond : (65 ≤ c.toNat && c.toNat ≤ 90) = false := by
    simp only [Bool.and_eq_false_iff, decide_eq_false_iff_not, not_le]
    rcases h with h | h
    · simp only [lowerAlnum, Bool.or_eq_true, Bool.and_eq_true, decide_eq_true_eq] at h
      omega
    · subst h; decide
  simp [toLowerAscii, hcond]

theorem cleanChar_id {c : Char} (h : goodChar c = true) : cleanChar c = c := by
  have hcond : (lowerAlnum c || pySpace c) = true := by
    simp only [goodChar, Bool.or_eq_true, beq_iff_eq] at h
    rcases h with h | h
    · simp [h]
    · subst h; decide
  simp [cleanChar, hcond]

theorem okChar_cleanChar (c : Char) : okChar (cleanChar c) = true := by
  by_cases h : (lowerAlnum c || pySpace c) = true
  · simp [cleanChar, h, okChar]
  · simp only [Bool.not_eq_true] at h
    simp only [cleanChar, h, Bool.false_eq_true, if_false]
    decide

theorem goodChar_of_okChar_not_ws {c : Char} (hok : okChar c = true)
    (hws : pySpace c = false) : goodChar c = true := by
  simp only [okChar, Bool.or_eq_true] at hok
  rcases hok with h | h
  · simp [goodChar, h]
  · rw [h] at hws; cases hws

/-! ## The cleaning maps produce `okChar` characters and fix good ones -/

theorem maps_ok (l : List Char) :
    ∀ c ∈ (l.map toLowerAscii).map cleanChar, okChar c = true := by
  intro c hc
  simp only [List.map_map, List.mem_map] at hc
  obtain ⟨a, -, rfl⟩ := hc
  exact okChar_cleanChar (toLowerAscii a)

theorem maps_id (l : List Char) (h : ∀ c ∈ l, goodChar c = true) :
    (l.map toLowerAscii).map cleanChar = l := by
  induction l with
  | nil => rfl
  | cons c cs ih =>
    have hc := h c (List.mem_cons_self c cs)
    simp only [List.map_cons, toLowerAscii_id hc, cleanChar_id hc, List.cons.injEq,
      true_and]
    exact ih fun x hx => h x (List.mem_cons_of_mem c hx)

/-! ## Structure of the collapsed text -/

theorem noDbl_tail {c : Char} {cs : List Char} (h : noDbl (c :: cs) = true) :
    noDbl cs = true := by
  cases cs with
  | nil => rfl
  | cons d ds => exact (Bool.and_eq_true_iff.mp h).2

theorem noDbl_cons_space {l : List Char} (hh : headNotWS l = true)
    (hd : noDbl l = true) : noDbl (' ' :: l) = true := by
  cases l with
  | nil => rfl
  | cons x xs =>
    simp only [headNotWS, Bool.not_eq_true'] at hh
    simp [noDbl, hh, hd]

theorem noDbl_cons_nonspace {c : Char} {l : List Char} (hc : pySpace c = false)
    (hd : noDbl l = true) : noDbl (c :: l) = true := by
  cases l with
  | nil => rfl
  | cons x xs => simp [noDbl, hc, hd]

theorem collapseWS_good {l : List Char} (h : ∀ c ∈ l, okChar c = true) :
    ∀ b, ∀ c ∈ collapseWS l b, goodChar c = true := by
  induction l with
  | nil => intro b c hc; cases hc
  | cons x xs ih =>
    intro b c hc
    have hx := h x (List.mem_cons_self x xs)
    have htail := fun y hy => h y (List.mem_cons_of_mem x hy)
    by_cases hs : pySpace x = true
    · cases b with
      | true =>
        simp only [collapseWS, hs, if_true] at hc
        exact ih htail true c hc
      | false =>
        simp only [collapseWS, hs, if_true] at hc
        rcases List.mem_cons.mp hc with rfl | hc
        · decide
        · exact ih htail true c hc
    · simp only [Bool.not_eq_true] at hs
      simp only [collapseWS, hs, Bool.false_eq_true, if_false] at hc
      rcases List.mem_cons.mp hc with rfl | hc
      · exact goodChar_of_okChar_not_ws hx hs
      · exact ih htail false c hc

theorem collapseWS_shape (l : List Char) :
    headNotWS (collapseWS l true) = true ∧ noDbl (collapseWS l true) = true
    ∧ noDbl (collapseWS l false) = true := by
  induction l with
  | nil => exact ⟨rfl, rfl, rfl⟩
  | cons x xs ih =>
    obtain ⟨ih1, ih2, ih3⟩ := ih
    by_cases hs : pySpace x = true
    · refine ⟨?_, ?_, ?_⟩ <;> simp only [collapseWS, hs, if_true]
      · exact ih1
      · exact ih2
      · exact noDbl_cons_space ih1 ih2
    · simp only [Bool.not_eq_true] at hs
      refine ⟨?_, ?_, ?_⟩ <;>
        simp only [collapseWS, hs, Bool.false_eq_true, if_false]
      · simp [headNotWS, hs]
      · exact noDbl_cons_nonspace hs ih3
      · exact noDbl_cons_nonspace hs ih3

theorem collapseWS_id {l : List Char} (hg : ∀ c ∈ l, goodChar c = true)
    (hd : noDbl l = true) :
    collapseWS l false = l ∧ (headNotWS l = true → collapseWS l true = l) := by
  induction l with
  | nil => exact ⟨rfl, fun _ => rfl⟩
  | cons x xs ih =>
    have hx := hg x (List.mem_cons_self x xs)
    have htail := fun y hy => hg y (List.mem_cons_of_mem x hy)
    obtain ⟨ih1, ih2⟩ := ih htail (noDbl_tail hd)
    by_cases hs : pySpace x = true
    · have hxsp : x = ' ' := goodChar_space hx hs
      subst hxsp
      have hhead : headNotWS xs = true := by
        cases xs with
        | nil => rfl
        | cons d ds =>
          have := hd
          simp only [noDbl, Bool.and_eq_true, Bool.not_eq_true',
            Bool.and_eq_false_iff] at this
          rcases this.1 with h | h
          · rw [hs] at h; cases h
          · simp [headNotWS, h]
      constructor
      · rw [show collapseWS (' ' :: xs) false = ' ' :: collapseWS xs true from rfl,
          ih2 hhead]
      · intro hh
        rw [show headNotWS (' ' :: xs) = false from rfl] at hh
        cases hh
    · simp only [Bool.not_eq_true] at hs
      constructor
      · simp only [collapseWS, hs, Bool.false_eq_true, if_false, List.cons.injEq,
          true_and]
        exact ih1
      · intro _
        simp only [collapseWS, hs, Bool.false_eq_true, if_false, List.cons.injEq,
          true_and]
        exact ih1

end QRPE

namespace QRPE

set_option maxRecDepth 40000

/-! ## Structure of the stripped text -/

theorem dropWhile_good {l : List Char} (h : ∀ c ∈ l, goodChar c = true) :
    ∀ c ∈ l.dropWhile pySpace, goodChar c = true := by
  induction l with
  | nil => intro c hc; cases hc
  | cons x xs ih =>
    intro c hc
    by_cases hs : pySpace x = true
    · simp only [List.dropWhile_cons, hs, if_true] at hc
      exact ih (fun y hy => h y (List.mem_cons_of_mem x hy)) c hc
    · simp only [Bool.not_eq_true] at hs
      simp only [List.dropWhile_cons, hs, Bool.false_eq_true, if_false] at hc
      exact h c hc

theorem dropWhile_noDbl {l : List Char} (h : noDbl l = true) :
    noDbl (l.dropWhile pySpace) = true := by
  induction l with
  | nil => rfl
  | cons x xs ih =>
    by_cases hs : pySpace x = true
    · simp only [List.dropWhile_cons, hs, if_true]
      exact ih (noDbl_tail h)
    · simp only [Bool.not_eq_true] at hs
      simp only [List.dropWhile_cons, hs, Bool.false_eq_true, if_false]
      exact h

theorem dropWhile_headNotWS (l : List Char) :
    headNotWS (l.dropWhile pySpace) = true := by
  induction l with
  | nil => rfl
  | cons x xs ih =>
    by_cases hs : pySpace x = true
    · simp only [List.dropWhile_cons, hs, if_true]
      exact ih
    · simp only [Bool.not_eq_true] at hs
      simp only [List.dropWhile_cons, hs, Bool.false_eq_true, if_false]
      simp [headNotWS, hs]

theorem dropWhile_id {l : List Char} (h : headNotWS l = true) :
    l.dropWhile pySpace = l := by
  cases l with
  | nil => rfl
  | cons x xs =>
    simp only [headNotWS, Bool.not_eq_true'] at h
    simp [List.dropWhile_cons, h]

theorem dropEndWS_good {l : List Char} (h : ∀ c ∈ l, goodChar c = true) :
    ∀ c ∈ dropEndWS l, goodChar c = true := by
  induction l with
  | nil => intro c hc; cases hc
  | cons x xs ih =>
    intro c hc
    simp only [dropEndWS] at hc
    by_cases hb : ((dropEndWS xs).isEmpty && pySpace x) = true
    · rw [if_pos hb] at hc; cases hc
    · rw [if_neg hb] at hc
      rcases List.mem_cons.mp hc with rfl | hc
      · exact h c (List.mem_cons_self c xs)
      · exact ih (fun y hy => h y (List.mem_cons_of_mem x hy)) c hc

theorem dropEndWS_noDbl {l : List Char} (h : noDbl l = true) :
    noDbl (dropEndWS l) = true := by
  induction l with
  | nil => rfl
  | cons x xs ih =>
    have ihx := ih (noDbl_tail h)
    simp only [dropEndWS]
    by_cases hb : ((dropEndWS xs).isEmpty && pySpace x) = true
    · rw [if_pos hb]; rfl
    · rw [if_neg hb]
      cases xs with
      | nil => rfl
      | cons d ds =>
        cases he : dropEndWS (d :: ds) with
        | nil => rfl
        | cons e es =>
          have hed : e = d := by
            have h2 := he
            rw [show dropEndWS (d :: ds)
                = (if (dropEndWS ds).isEmpty && pySpace d then []
                   else d :: dropEndWS ds) from rfl] at h2
            by_cases hb2 : ((dropEndWS ds).isEmpty && pySpace d) = true
            · rw [if_pos hb2] at h2; cases h2
            · rw [if_neg hb2] at h2
              injection h2 with h3 h4
              exact h3.symm
          have hnd : noDbl (x :: d :: ds) = true := h
          simp only [noDbl, Bool.and_eq_true, Bool.not_eq_true'] at hnd
          rw [he] at ihx
          rw [hed] at ihx ⊢
          simp [noDbl, hnd.1, ihx]

theorem dropEndWS_headNotWS {l : List Char} (h : headNotWS l = true) :
    headNotWS (dropEndWS l) = true := by
  cases l with
  | nil => rfl
  | cons x xs =>
    simp only [dropEndWS]
    by_cases hb : ((dropEndWS xs).isEmpty && pySpace x) = true
    · rw [if_pos hb]; rfl
    · rw [if_neg hb]
      exact h

theorem dropEndWS_lastNotWS (l : List Char) : lastNotWS (dropEndWS l) = true := by
  induction l with
  | nil => rfl
  | cons x xs ih =>
    simp only [dropEndWS]
    by_cases hb : ((dropEndWS xs).isEmpty && pySpace x) = true
    · rw [if_pos hb]; rfl
    · rw [if_neg hb]
      cases he : dropEndWS xs with
      | nil =>
        have hx : pySpace x = false := by
          rcases Bool.and_eq_false_iff.mp (Bool.eq_false_iff.mpr hb) with h1 | h1
          · rw [he] at h1; cases h1
          · exact h1
        simp [lastNotWS, hx]
      | cons e es =>
        rw [he] at ih
        simpa [lastNotWS] using ih

theorem dropEndWS_id {l : List Char} (h : lastNotWS l = true) : dropEndWS l = l := by
  induction l with
  | nil => rfl
  | cons x xs ih =>
    cases xs with
    | nil =>
      simp only [lastNotWS, Bool.not_eq_true'] at h
      simp [dropEndWS, h]
    | cons d ds =>
      have hx : lastNotWS (d :: ds) = true := h
      rw [show dropEndWS (x :: d :: ds)
          = (if (dropEndWS (d :: ds)).isEmpty && pySpace x then []
             else x :: dropEndWS (d :: ds)) from rfl,
        ih hx]
      simp

end QRPE

namespace QRPE

set_option maxRecDepth 40000

/-! ## Invariants of normalized text, and idempotence -/

theorem normalize_good (s : String) :
    ∀ c ∈ (normalize s).data, goodChar c = true := by
  show ∀ c ∈ dropEndWS ((collapseWS ((s.data.map toLowerAscii).map cleanChar)
      false).dropWhile pySpace), goodChar c = true
  exact dropEndWS_good (dropWhile_good (collapseWS_good (maps_ok s.data) false))

theorem normalize_noDbl (s : String) : noDbl (normalize s).data = true := by
  show noDbl (dropEndWS ((collapseWS ((s.data.map toLowerAscii).map cleanChar)
      false).dropWhile pySpace)) = true
  exact dropEndWS_noDbl (dropWhile_noDbl (collapseWS_shape _).2.2)

theorem normalize_headNotWS (s : String) : headNotWS (normalize s).data = true := by
  show headNotWS (dropEndWS ((collapseWS ((s.data.map toLowerAscii).map cleanChar)
      false).dropWhile pySpace)) = true
  exact dropEndWS_headNotWS (dropWhile_headNotWS _)

theorem normalize_lastNotWS (s : String) : lastNotWS (normalize s).data = true := by
  show lastNotWS (dropEndWS ((collapseWS ((s.data.map toLowerAscii).map cleanChar)
      false).dropWhile pySpace)) = true
  exact dropEndWS_lastNotWS _

/-- Claim C9: the normalizer is idempotent — normalizing an already normalized
text changes nothing. -/
theorem claim_C9_thm (t : String) : normalize (normalize t) = normalize t := by
  have hg := normalize_good t
  have hd := normalize_noDbl t
  have hh := normalize_headNotWS t
  have hl := normalize_lastNotWS t
  show (⟨stripWS (collapseWS (((normalize t).data.map toLowerAscii).map cleanChar)
      false)⟩ : String) = normalize t
  rw [maps_id _ hg, (collapseWS_id hg hd).1]
  show (⟨dropEndWS ((normalize t).data.dropWhile pySpace)⟩ : String) = normalize t
  rw [dropWhile_id hh, dropEndWS_id hl]

end QRPE
